import Mathlib

/-!
Verification of the MM-IM remediator core (`app/main.py`).

The Python source is shallowly embedded: texts are `List Char` (ASCII is the
intended alphabet; the regex classes `\w` and `\s` are modelled by their ASCII
parts), and the one piece of ambient state the code reads —
`datetime.today().strftime("%Y-%m-%d")` — is made an explicit `today`
parameter of `remediate_code`.  The scanner models
`TABLE_RE.finditer`: at each position it requires a word boundary, tries the
vocabulary alternatives in the order of `TABLE_NAMES` (length-descending,
insertion-stable, exactly the list Python's stable `sorted` produces), and on
success continues past the match.  A fuel argument (initialised to the text
length, which suffices since every step consumes at least one character) makes
the recursion structural so that terms evaluate inside the kernel.
-/

/-- ASCII model of Python `str.upper` on one character (`a`–`z` map to
`A`–`Z`, everything else is fixed). -/
def upperChar (c : Char) : Char :=
  if h : 97 ≤ c.toNat ∧ c.toNat ≤ 122 then
    Char.ofNatAux (c.toNat - 32) (Or.inl (by omega))
  else c

/-- ASCII model of the regex class `\w` (letters, digits, underscore). -/
def isWordChar (c : Char) : Bool :=
  decide ((65 ≤ c.toNat ∧ c.toNat ≤ 90) ∨ (97 ≤ c.toNat ∧ c.toNat ≤ 122) ∨
    (48 ≤ c.toNat ∧ c.toNat ≤ 57) ∨ c.toNat = 95)

/-- ASCII model of the regex class `\s` (space, tab, newline, CR, FF, VT). -/
def isSpaceChar (c : Char) : Bool :=
  decide (c.toNat = 32 ∨ c.toNat = 9 ∨ c.toNat = 10 ∨ c.toNat = 13 ∨
    c.toNat = 12 ∨ c.toNat = 11)

/-- Replacement identifier and explanatory note of one Reference Entry
(one value of Python's `TABLE_MAP`). -/
structure Info where
  new : List Char
  note : List Char
  deriving Repr, DecidableEq

/-- The merged reference mapping `TABLE_MAP = {**CORE_DOC_MAP, **HYBRID_MAP,
**AGGR_MAP, **DIMP_MAP, **HISTORY_MAP}`, as an association list in dict
insertion order (all keys are distinct, so the merge is the concatenation). -/
def TABLE_ENTRIES : List (List Char × Info) := [
  ("MKPF".toList, ⟨"MATDOC".toList, "Header data no longer stored separately. Still exists as DDIC object, but only read via CDS view NSDM_DDL_MKPF.".toList⟩),
  ("MSEG".toList, ⟨"MATDOC".toList, "Item + header + attributes merged. Proxy CDS: NSDM_DDL_MSEG.".toList⟩),
  ("MARC".toList, ⟨"NSDM_V_MARC".toList, "Plant Data for Material now redirected to CDS views.".toList⟩),
  ("MARD".toList, ⟨"NSDM_V_MARD".toList, "Storage location data no longer persisted.".toList⟩),
  ("MCHB".toList, ⟨"NSDM_V_MCHB".toList, "Batch stock quantities derived from MATDOC.".toList⟩),
  ("MKOL".toList, ⟨"NSDM_V_MKOL".toList, "Special stocks from vendor redirected.".toList⟩),
  ("MSLB".toList, ⟨"NSDM_V_MSLB".toList, "Special stocks with vendor derived from MATDOC.".toList⟩),
  ("MSKA".toList, ⟨"NSDM_V_MSKA".toList, "Sales order stock redirected.".toList⟩),
  ("MSPR".toList, ⟨"NSDM_V_MSPR".toList, "Project stock aggregated on the fly.".toList⟩),
  ("MSKU".toList, ⟨"NSDM_V_MSKU".toList, "Special stocks with customer from MATDOC.".toList⟩),
  ("MSSA".toList, ⟨"NSDM_V_MSSA".toList, "Customer order totals replaced by CDS view.".toList⟩),
  ("MSSL".toList, ⟨"NSDM_V_MSSL".toList, "Special stocks with vendor totals replaced by CDS view.".toList⟩),
  ("MSSQ".toList, ⟨"NSDM_V_MSSQ".toList, "Project stock totals replaced by CDS view.".toList⟩),
  ("MSTB".toList, ⟨"NSDM_V_MSTB".toList, "Stock in transit replaced by CDS view.".toList⟩),
  ("MSTE".toList, ⟨"NSDM_V_MSTE".toList, "Stock in transit (SD Doc) replaced by CDS view.".toList⟩),
  ("MSTQ".toList, ⟨"NSDM_V_MSTQ".toList, "Stock in transit for project replaced by CDS view.".toList⟩),
  ("MCSD".toList, ⟨"NSDM_V_MCSD".toList, "Customer Stock split: stock → MATDOC, master → MCSD_MD.".toList⟩),
  ("MCSS".toList, ⟨"NSDM_V_MCSS".toList, "Customer Stock Total split: stock → MATDOC, master → MCSS_MD.".toList⟩),
  ("MSCD".toList, ⟨"NSDM_V_MSCD".toList, "Customer Stock with Vendor split into MATDOC + MSCD_MD.".toList⟩),
  ("MSCS".toList, ⟨"NSDM_V_MSCS".toList, "Cust. Stock with Vendor Total split into MATDOC + MSCS_MD.".toList⟩),
  ("MSFD".toList, ⟨"NSDM_V_MSFD".toList, "Sales Order Stock with Vendor split into MATDOC + MSFD_MD.".toList⟩),
  ("MSFS".toList, ⟨"NSDM_V_MSFS".toList, "Sales Order Stock with Vendor Total split into MATDOC + MSFS_MD.".toList⟩),
  ("MSID".toList, ⟨"NSDM_V_MSID".toList, "Vendor Stock split into MATDOC + MSID_MD.".toList⟩),
  ("MSIS".toList, ⟨"NSDM_V_MSIS".toList, "Vendor Stock Total split into MATDOC + MSIS_MD.".toList⟩),
  ("MSRD".toList, ⟨"NSDM_V_MSRD".toList, "Project Stock with Vendor split into MATDOC + MSRD_MD.".toList⟩),
  ("MSRS".toList, ⟨"NSDM_V_MSRS".toList, "Project Stock with Vendor Total split into MATDOC + MSRS_MD.".toList⟩),
  ("MARCH".toList, ⟨"NSDM_V_MARCH".toList, "MARC History redirected to CDS.".toList⟩),
  ("MARDH".toList, ⟨"NSDM_V_MARDH".toList, "MARD History redirected to CDS.".toList⟩),
  ("MCHBH".toList, ⟨"NSDM_V_MCHBH".toList, "MCHB History redirected to CDS.".toList⟩),
  ("MKOLH".toList, ⟨"NSDM_V_MKOLH".toList, "MKOL History redirected to CDS.".toList⟩),
  ("MSLBH".toList, ⟨"NSDM_V_MSLBH".toList, "MSLB History redirected to CDS.".toList⟩),
  ("MSKAH".toList, ⟨"NSDM_V_MSKAH".toList, "MSKA History redirected to CDS.".toList⟩),
  ("MSSAH".toList, ⟨"NSDM_V_MSSAH".toList, "MSSA History redirected to CDS.".toList⟩),
  ("MSPRH".toList, ⟨"NSDM_V_MSPRH".toList, "MSPR History redirected to CDS.".toList⟩),
  ("MSSQH".toList, ⟨"NSDM_V_MSSQH".toList, "MSSQ History redirected to CDS.".toList⟩),
  ("MSKUH".toList, ⟨"NSDM_V_MSKUH".toList, "MSKU History redirected to CDS.".toList⟩),
  ("MSTBH".toList, ⟨"NSDM_V_MSTBH".toList, "MSTB History redirected to CDS.".toList⟩),
  ("MSTEH".toList, ⟨"NSDM_V_MSTEH".toList, "MSTE History redirected to CDS.".toList⟩),
  ("MSTQH".toList, ⟨"NSDM_V_MSTQH".toList, "MSTQ History redirected to CDS.".toList⟩),
  ("MCSDH".toList, ⟨"NSDM_V_MCSDH".toList, "MCSD History redirected to CDS.".toList⟩),
  ("MCSSH".toList, ⟨"NSDM_V_MCSSH".toList, "MCSS History redirected to CDS.".toList⟩),
  ("MSCDH".toList, ⟨"NSDM_V_MSCDH".toList, "MSCD History redirected to CDS.".toList⟩),
  ("MSFDH".toList, ⟨"NSDM_V_MSFDH".toList, "MSFD History redirected to CDS.".toList⟩),
  ("MSIDH".toList, ⟨"NSDM_V_MSIDH".toList, "MSID History redirected to CDS.".toList⟩),
  ("MSRDH".toList, ⟨"NSDM_V_MSRDH".toList, "MSRD History redirected to CDS.".toList⟩)]

/-- Dict lookup `TABLE_MAP.get(name)`. -/
def TABLE_MAP (n : List Char) : Option Info :=
  List.lookup n TABLE_ENTRIES

/-- The result of `sorted(TABLE_MAP.keys(), key=len, reverse=True)`: Python's
sort is stable, so the nineteen 5-letter history names come first in insertion
order, followed by the twenty-six 4-letter names in insertion order.
`tableNamesSorted` below checks this list against `TABLE_ENTRIES`. -/
def TABLE_NAMES : List (List Char) := [
  "MARCH".toList, "MARDH".toList, "MCHBH".toList, "MKOLH".toList,
  "MSLBH".toList, "MSKAH".toList, "MSSAH".toList, "MSPRH".toList,
  "MSSQH".toList, "MSKUH".toList, "MSTBH".toList, "MSTEH".toList,
  "MSTQH".toList, "MCSDH".toList, "MCSSH".toList, "MSCDH".toList,
  "MSFDH".toList, "MSIDH".toList, "MSRDH".toList,
  "MKPF".toList, "MSEG".toList, "MARC".toList, "MARD".toList,
  "MCHB".toList, "MKOL".toList, "MSLB".toList, "MSKA".toList,
  "MSPR".toList, "MSKU".toList, "MSSA".toList, "MSSL".toList,
  "MSSQ".toList, "MSTB".toList, "MSTE".toList, "MSTQ".toList,
  "MCSD".toList, "MCSS".toList, "MSCD".toList, "MSCS".toList,
  "MSFD".toList, "MSFS".toList, "MSID".toList, "MSIS".toList,
  "MSRD".toList, "MSRS".toList]

/-- One `TABLE_RE` match: its start offset in the text and the canonical
(upper-case) vocabulary name it matched; the match ends at
`start + name.length`. -/
structure TMatch where
  start : Nat
  name : List Char
  deriving Repr, DecidableEq

/-- Case-insensitive literal match of a vocabulary name against the head of
the text; returns the text after the consumed prefix. -/
def matchCI : List Char → List Char → Option (List Char)
  | rest, [] => some rest
  | [], _ :: _ => none
  | c :: cs, k :: ks => if upperChar c = k then matchCI cs ks else none

/-- The trailing `\b` of `TABLE_RE`: the character after the match (the head
of the remaining text) must not be a word character. -/
def boundaryAfter : List Char → Bool
  | [] => true
  | c :: _ => !(isWordChar c)

/-- The regex alternation: try the names in `TABLE_NAMES` order; an
alternative succeeds only if the trailing word boundary also holds. -/
def firstNameMatch : List (List Char) → List Char → Option (List Char)
  | [], _ => none
  | n :: ns, rest =>
    match matchCI rest n with
    | some after => if boundaryAfter after then some n else firstNameMatch ns rest
    | none => firstNameMatch ns rest

/-- Scanner for `TABLE_RE.finditer`.  `prevW` says whether the character just
before `pos` is a word character (so the leading `\b` holds at `pos` iff
`prevW` is false, every vocabulary name starting with a word character).
After a successful match of `n` at `pos` the scan resumes past it, at
`pos + n.length`; `n` is non-empty for every vocabulary name, so the text
after the match is `cs.drop (n.length - 1)`.  The structural `fuel` argument
only bounds the iteration count: each step consumes at least one character,
so `fuel = text.length` (as passed by `scan`) never runs out. -/
def scanAux (names : List (List Char)) : Nat → Bool → Nat → List Char → List TMatch
  | 0, _, _, _ => []
  | _ + 1, _, _, [] => []
  | fuel + 1, true, pos, c :: cs => scanAux names fuel (isWordChar c) (pos + 1) cs
  | fuel + 1, false, pos, c :: cs =>
    match firstNameMatch names (c :: cs) with
    | some n => ⟨pos, n⟩ :: scanAux names fuel true (pos + n.length) (cs.drop (n.length - 1))
    | none => scanAux names fuel (isWordChar c) (pos + 1) cs

/-- All `TABLE_RE` matches of a text, in increasing start order (the
`sorted(..., key=lambda x: x.start())` in the source is a no-op on this
already-ordered stream). -/
def scan (txt : List Char) : List TMatch :=
  scanAux TABLE_NAMES txt.length false 0 txt

/-- Python slice `txt[a:b]` for natural indices (`Nat` subtraction clips the
width at zero, matching a slice with `a ≥ b`). -/
def seg (txt : List Char) (a b : Nat) : List Char :=
  (txt.drop a).take (b - a)

/-- Index of the first newline of a list, if any. -/
def idxOfNL : List Char → Option Nat
  | [] => none
  | c :: cs => if c = '\n' then some 0 else (idxOfNL cs).map (· + 1)

/-- Python `txt.rfind("\n", 0, i) + 1`: the line-start offset for a match
beginning at `i` (0 when no earlier newline exists).  The first newline of
the reversed prefix at reversed index `k` is the last newline of the prefix,
at offset `i - 1 - k`, so the line starts at `i - k`. -/
def lineStart (txt : List Char) (i : Nat) : Nat :=
  match idxOfNL (txt.take i).reverse with
  | none => 0
  | some k => i - k

/-- Python `txt.find("\n", j)` with the `-1` case mapped to `len(txt)`: the
(exclusive) line-end offset for a match ending at `j`. -/
def lineEnd (txt : List Char) (j : Nat) : Nat :=
  match idxOfNL (txt.drop j) with
  | none => txt.length
  | some k => j + k

/-- The enclosing line of a match, upper-cased for the keyword test
(`line = txt[line_start:line_end].upper()`). -/
def lineOfMatch (txt : List Char) (m : TMatch) : List Char :=
  (seg txt (lineStart txt m.start) (lineEnd txt (m.start + m.name.length))).map upperChar

/-- Exact literal prefix match; returns the remaining text. -/
def dropLit : List Char → List Char → Option (List Char)
  | rest, [] => some rest
  | [], _ :: _ => none
  | c :: cs, k :: ks => if c = k then dropLit cs ks else none

/-- The regex piece `\s+`: at least one whitespace character, consumed
greedily (the token that follows in both protection patterns starts with a
non-whitespace character, so greedy consumption is exact). -/
def wsThen : List Char → Option (List Char)
  | [] => none
  | c :: cs => if isSpaceChar c then some (cs.dropWhile isSpaceChar) else none

/-- Matcher for `re.match(r"\s*(UPDATE|MODIFY)\s+" + name + r"\b", line)`
specialised to one keyword alternative. -/
def kwTableAt (line kw name : List Char) : Bool :=
  match dropLit (line.dropWhile isSpaceChar) kw with
  | none => false
  | some r1 =>
    match wsThen r1 with
    | none => false
    | some r2 =>
      match dropLit r2 name with
      | none => false
      | some r3 => boundaryAfter r3

/-- Matcher for `re.match(r"\s*DELETE\s+FROM\s+" + name + r"\b", line)`. -/
def kwDeleteFrom (line name : List Char) : Bool :=
  match dropLit (line.dropWhile isSpaceChar) ("DELETE".toList) with
  | none => false
  | some r1 =>
    match wsThen r1 with
    | none => false
    | some r2 =>
      match dropLit r2 ("FROM".toList) with
      | none => false
      | some r3 =>
        match wsThen r3 with
        | none => false
        | some r4 =>
          match dropLit r4 name with
          | none => false
          | some r5 => boundaryAfter r5

/-- The protection test of `remediate_code`: the upper-cased enclosing line
matches one of the two anchored write-statement patterns for this table. -/
def protectedLine (line name : List Char) : Bool :=
  kwTableAt line ("UPDATE".toList) name || kwTableAt line ("MODIFY".toList) name ||
    kwDeleteFrom line name

/-- Python `snippet_at`: `txt[max(0, start - 60) : min(len(txt), end + 60)]`
(`Nat` subtraction is the `max(0, ...)` clip). -/
def snippet_at (txt : List Char) (start e : Nat) : List Char :=
  seg txt (start - 60) (min txt.length (e + 60))

/-- One Issue record, with the fields the Python dict built by `_add_hit`
carries; `note` is `none` when the `note` key is absent. -/
structure Issue where
  table : List Char
  target_type : List Char
  target_name : List Char
  used_fields : List (List Char)
  ambiguous : Bool
  suggested_statement : List Char
  suggested_fields : Option (List Char)
  snippet : List Char
  note : Option (List Char)
  deriving Repr, DecidableEq

/-- The Issue `_add_hit` appends for a rewritten match: the call site passes
the legacy `name` as `target_name`, the statement
`f"Replaced {name} with {replacement}."`, and the entry's note (every entry
has a non-empty note, so the `if note:` guard always fires). -/
def issueOf (txt : List Char) (m : TMatch) : Issue :=
  match TABLE_MAP m.name with
  | some info =>
    { table := m.name
      target_type := "Table".toList
      target_name := m.name
      used_fields := []
      ambiguous := false
      suggested_statement :=
        "Replaced ".toList ++ m.name ++ " with ".toList ++ info.new ++ ".".toList
      suggested_fields := none
      snippet := snippet_at txt m.start (m.start + m.name.length)
      note := some info.note }
  | none =>
    { table := m.name
      target_type := "Table".toList
      target_name := m.name
      used_fields := []
      ambiguous := false
      suggested_statement := []
      suggested_fields := none
      snippet := snippet_at txt m.start (m.start + m.name.length)
      note := none }

/-- The provenance marker `f'\n" Changed by PwC on {today}\n'`; `today` is the
`datetime.today().strftime("%Y-%m-%d")` value read by `remediate_code`. -/
def changeMarker (today : List Char) : List Char :=
  "\n\" Changed by PwC on ".toList ++ today ++ "\n".toList

/-- A match the engine rewrites: its name resolves in `TABLE_MAP` and its
enclosing line is not protected. -/
def isRewritable (txt : List Char) (m : TMatch) : Bool :=
  match TABLE_MAP m.name with
  | none => false
  | some _ => !(protectedLine (lineOfMatch txt m) m.name)

/-- The per-match loop of `remediate_code`: `lastIdx` is the write cursor into
the original text; the base case appends the trailing `txt[last_idx:]`. -/
def remediateLoop (txt today : List Char) : List TMatch → Nat → List Char × List Issue
  | [], lastIdx => (txt.drop lastIdx, [])
  | m :: ms, lastIdx =>
    match TABLE_MAP m.name with
    | none => remediateLoop txt today ms lastIdx
    | some info =>
      if protectedLine (lineOfMatch txt m) m.name then
        let r := remediateLoop txt today ms (m.start + m.name.length)
        (seg txt lastIdx (m.start + m.name.length) ++ r.1, r.2)
      else
        let r := remediateLoop txt today ms (m.start + m.name.length)
        (seg txt lastIdx m.start ++ info.new ++ changeMarker today ++ r.1,
          issueOf txt m :: r.2)

/-- Python `remediate_code(txt)` with the current-date string made explicit:
returns `(new_txt, issues)`. -/
def remediate_code (txt today : List Char) : List Char × List Issue :=
  if txt = [] then (txt, [])
  else remediateLoop txt today (scan txt) 0

/-- The character of `txt` at index `i`, tested for being a word character
(`false` past the end of the text). -/
def isWordAt (txt : List Char) (i : Nat) : Bool :=
  match txt.drop i with
  | [] => false
  | c :: _ => isWordChar c

/-- The match list starting from write-cursor position `p`: every match
starts at or after `p` and the next lower bound is the end of the match. -/
def startsOK : Nat → List TMatch → Bool
  | _, [] => true
  | p, m :: ms => decide (p ≤ m.start) && startsOK (m.start + m.name.length) ms

/-- The spec's wording of the protection rule, as a decomposition of the
(upper-cased) enclosing line: optional leading whitespace, then `UPDATE` or
`MODIFY`, whitespace, the matched table name and a word boundary — or
`DELETE`, whitespace, `FROM`, whitespace, the name and a word boundary. -/
def IsProtectedSpec (line name : List Char) : Prop :=
  ∃ w s rest, (∀ c ∈ w, isSpaceChar c = true) ∧ s ≠ [] ∧
    (∀ c ∈ s, isSpaceChar c = true) ∧ boundaryAfter rest = true ∧
    (line = w ++ "UPDATE".toList ++ s ++ name ++ rest ∨
     line = w ++ "MODIFY".toList ++ s ++ name ++ rest ∨
     ∃ s2, s2 ≠ [] ∧ (∀ c ∈ s2, isSpaceChar c = true) ∧
       line = w ++ "DELETE".toList ++ s ++ "FROM".toList ++ s2 ++ name ++ rest)

/-- An Issue with its `snippet` field blanked, for comparing Issues up to the
casing of the surrounding source window. -/
def clearSnippet (i : Issue) : Issue :=
  { i with snippet := [] }

theorem toNat_upperChar (c : Char) :
    (upperChar c).toNat = if 97 ≤ c.toNat ∧ c.toNat ≤ 122 then c.toNat - 32 else c.toNat := by
  unfold upperChar
  split
  · rfl
  · rfl

theorem char_toNat_inj {c d : Char} (h : c.toNat = d.toNat) : c = d := by
  have h1 := Char.ofNat_toNat c
  rw [h, Char.ofNat_toNat d] at h1
  exact h1.symm

theorem upperChar_upperChar (c : Char) : upperChar (upperChar c) = upperChar c := by
  apply char_toNat_inj
  have h1 := toNat_upperChar (upperChar c)
  have h2 := toNat_upperChar c
  split at h2 <;> split at h1 <;> omega

theorem isWordChar_upperChar (c : Char) : isWordChar (upperChar c) = isWordChar c := by
  unfold isWordChar
  have h := toNat_upperChar c
  split at h
  · rw [h, decide_eq_decide]
    omega
  · rw [h]

theorem newline_upperChar (c : Char) : upperChar c = '\n' ↔ c = '\n' := by
  constructor
  · intro h
    have h2 : (upperChar c).toNat = 10 := by rw [h]; rfl
    rw [toNat_upperChar c] at h2
    apply char_toNat_inj
    split at h2
    · omega
    · exact h2
  · intro h
    subst h
    rfl

theorem isSpaceChar_of_isWordChar {c : Char} (h : isWordChar c = true) :
    isSpaceChar c = false := by
  unfold isWordChar at h
  unfold isSpaceChar
  rw [decide_eq_true_iff] at h
  rw [decide_eq_false_iff_not]
  omega

/-- The hard-coded `TABLE_NAMES` list is exactly a stable length-descending
sort of the keys of `TABLE_ENTRIES`. -/
theorem tableNamesSorted :
    TABLE_NAMES.Perm (TABLE_ENTRIES.map Prod.fst) ∧
      TABLE_NAMES.Pairwise (fun a b => b.length ≤ a.length) := by
  constructor
  · decide
  · decide

theorem tableNames_ne_nil : ∀ n ∈ TABLE_NAMES, n ≠ [] := by decide

theorem tableNames_wordChars : ∀ n ∈ TABLE_NAMES, n.all isWordChar = true := by decide

theorem tableNames_lookup : ∀ n ∈ TABLE_NAMES, (TABLE_MAP n).isSome = true := by decide

theorem matchCI_drop : ∀ (n l r : List Char), matchCI l n = some r → r = l.drop n.length := by
  intro n
  induction n with
  | nil =>
    intro l r h
    simp only [matchCI, Option.some.injEq] at h
    simp [h.symm]
  | cons k ks ih =>
    intro l r h
    cases l with
    | nil => simp [matchCI] at h
    | cons c cs =>
      simp only [matchCI] at h
      split at h
      · exact ih cs r h
      · exact absurd h (by simp)

theorem matchCI_all_word : ∀ (n l r : List Char), matchCI l n = some r →
    n.all isWordChar = true → ∀ j < n.length, isWordAt l j = true := by
  intro n
  induction n with
  | nil =>
    intro l r _ _ j hj
    simp at hj
  | cons k ks ih =>
    intro l r h hall j hj
    cases l with
    | nil => simp [matchCI] at h
    | cons c cs =>
      simp only [matchCI] at h
      split at h
      · rename_i hck
        simp only [List.all_cons, Bool.and_eq_true] at hall
        cases j with
        | zero =>
          show isWordChar c = true
          rw [← isWordChar_upperChar, hck]
          exact hall.1
        | succ j =>
          have : isWordAt (c :: cs) (j + 1) = isWordAt cs j := rfl
          rw [this]
          exact ih cs r h hall.2 j (by simpa using hj)
      · exact absurd h (by simp)

theorem firstNameMatch_eq : ∀ (names : List (List Char)) (l n : List Char),
    firstNameMatch names l = some n →
    n ∈ names ∧ matchCI l n = some (l.drop n.length) ∧
      boundaryAfter (l.drop n.length) = true := by
  intro names
  induction names with
  | nil => intro l n h; simp [firstNameMatch] at h
  | cons n0 ns ih =>
    intro l n h
    simp only [firstNameMatch] at h
    cases h0 : matchCI l n0 with
    | none =>
      rw [h0] at h
      have := ih l n h
      exact ⟨List.mem_cons_of_mem _ this.1, this.2.1, this.2.2⟩
    | some after =>
      rw [h0] at h
      dsimp only at h
      by_cases hb : boundaryAfter after = true
      · rw [if_pos hb] at h
        cases h
        have hd := matchCI_drop n0 l after h0
        subst hd
        exact ⟨List.mem_cons_self _ _, h0, hb⟩
      · rw [if_neg hb] at h
        have := ih l n h
        exact ⟨List.mem_cons_of_mem _ this.1, this.2.1, this.2.2⟩

theorem boundaryAfter_drop (txt : List Char) (k : Nat) :
    boundaryAfter (txt.drop k) = !(isWordAt txt k) := by
  unfold isWordAt boundaryAfter
  cases txt.drop k with
  | nil => rfl
  | cons c cs => simp

theorem isWordAt_drop (txt : List Char) (i j : Nat) :
    isWordAt (txt.drop i) j = isWordAt txt (i + j) := by
  unfold isWordAt
  rw [List.drop_drop]

theorem startsOK_le : ∀ (ms : List TMatch) (p : Nat), startsOK p ms = true →
    ∀ m ∈ ms, p ≤ m.start := by
  intro ms
  induction ms with
  | nil => intro p _ m hm; simp at hm
  | cons m0 ms ih =>
    intro p h m hm
    simp only [startsOK, Bool.and_eq_true, decide_eq_true_eq] at h
    rcases List.mem_cons.1 hm with rfl | hm
    · exact h.1
    · exact Nat.le_trans (Nat.le_trans h.1 (Nat.le_add_right _ _)) (ih _ h.2 m hm)

theorem startsOK_mono : ∀ (ms : List TMatch) (p q : Nat), q ≤ p →
    startsOK p ms = true → startsOK q ms = true := by
  intro ms
  cases ms with
  | nil => intro p q _ _; rfl
  | cons m0 ms =>
    intro p q hqp h
    simp only [startsOK, Bool.and_eq_true, decide_eq_true_eq] at h ⊢
    exact ⟨Nat.le_trans hqp h.1, h.2⟩

theorem startsOK_pairwise : ∀ (ms : List TMatch) (p : Nat), startsOK p ms = true →
    (∀ m ∈ ms, m.name ≠ []) →
    List.Pairwise (fun a b : TMatch => a.start < b.start) ms := by
  intro ms
  induction ms with
  | nil => intro p _ _; exact List.Pairwise.nil
  | cons m0 ms ih =>
    intro p h hne
    simp only [startsOK, Bool.and_eq_true, decide_eq_true_eq] at h
    constructor
    · intro b hb
      have hlen : 0 < m0.name.length := by
        have := hne m0 (List.mem_cons_self _ _)
        cases hm0 : m0.name with
        | nil => exact absurd hm0 this
        | cons c cs => simp
      have := startsOK_le ms (m0.start + m0.name.length) h.2 b hb
      omega
    · exact ih _ h.2 (fun m hm => hne m (List.mem_cons_of_mem _ hm))

theorem scanAux_startsOK (names : List (List Char)) :
    ∀ (fuel : Nat) (rest : List Char) (pos : Nat) (prevW : Bool),
    startsOK pos (scanAux names fuel prevW pos rest) = true := by
  intro fuel
  induction fuel with
  | zero => intro rest pos prevW; rfl
  | succ fuel ih =>
    intro rest pos prevW
    cases rest with
    | nil => cases prevW <;> rfl
    | cons c cs =>
      cases prevW with
      | true =>
        have h : scanAux names (fuel + 1) true pos (c :: cs) =
            scanAux names fuel (isWordChar c) (pos + 1) cs := rfl
        rw [h]
        exact startsOK_mono _ _ _ (Nat.le_succ pos) (ih cs (pos + 1) (isWordChar c))
      | false =>
        cases hf : firstNameMatch names (c :: cs) with
        | none =>
          have h : scanAux names (fuel + 1) false pos (c :: cs) =
              scanAux names fuel (isWordChar c) (pos + 1) cs := by
            simp only [scanAux, hf]
          rw [h]
          exact startsOK_mono _ _ _ (Nat.le_succ pos) (ih cs (pos + 1) (isWordChar c))
        | some n =>
          have h : scanAux names (fuel + 1) false pos (c :: cs) =
              ⟨pos, n⟩ :: scanAux names fuel true (pos + n.length) (cs.drop (n.length - 1)) := by
            simp only [scanAux, hf]
          rw [h]
          simp only [startsOK, Bool.and_eq_true, decide_eq_true_eq]
          exact ⟨Nat.le_refl _, ih _ _ _⟩

theorem scanAux_mem_spec (txt : List Char) :
    ∀ (fuel : Nat) (rest : List Char) (pos : Nat) (prevW : Bool),
    rest = txt.drop pos →
    prevW = (decide (0 < pos) && isWordAt txt (pos - 1)) →
    ∀ m ∈ scanAux TABLE_NAMES fuel prevW pos rest,
      m.name ∈ TABLE_NAMES ∧
      (m.start = 0 ∨ isWordAt txt (m.start - 1) = false) ∧
      isWordAt txt (m.start + m.name.length) = false := by
  intro fuel
  induction fuel with
  | zero =>
    intro rest pos prevW _ _ m hm
    simp [scanAux] at hm
  | succ fuel ih =>
    intro rest pos prevW hrest hprev m hm
    cases rest with
    | nil => cases prevW <;> simp [scanAux] at hm
    | cons c cs =>
      have hcs : cs = txt.drop (pos + 1) := by
        have h1 : txt.drop (pos + 1) = (txt.drop pos).drop 1 := by
          rw [List.drop_drop]
        rw [h1, ← hrest]
        rfl
      have hcpos : isWordAt txt pos = isWordChar c := by
        unfold isWordAt
        rw [← hrest]
      cases prevW with
      | true =>
        refine ih cs (pos + 1) (isWordChar c) hcs ?_ m ?_
        · simp [hcpos]
        · simpa [scanAux] using hm
      | false =>
        cases hf : firstNameMatch TABLE_NAMES (c :: cs) with
        | none =>
          refine ih cs (pos + 1) (isWordChar c) hcs ?_ m ?_
          · simp [hcpos]
          · have h : scanAux TABLE_NAMES (fuel + 1) false pos (c :: cs) =
                scanAux TABLE_NAMES fuel (isWordChar c) (pos + 1) cs := by
              simp only [scanAux, hf]
            rw [h] at hm
            exact hm
        | some n =>
          have hspec := firstNameMatch_eq TABLE_NAMES (c :: cs) n hf
          have hnne : n ≠ [] := tableNames_ne_nil n hspec.1
          have hlen : 0 < n.length := List.length_pos.2 hnne
          have hdropn : (c :: cs).drop n.length = txt.drop (pos + n.length) := by
            rw [hrest] at *
            rw [List.drop_drop]
          have h : scanAux TABLE_NAMES (fuel + 1) false pos (c :: cs) =
              ⟨pos, n⟩ :: scanAux TABLE_NAMES fuel true (pos + n.length)
                (cs.drop (n.length - 1)) := by
            simp only [scanAux, hf]
          rw [h] at hm
          rcases List.mem_cons.1 hm with rfl | hmtail
          · refine ⟨hspec.1, ?_, ?_⟩
            · show pos = 0 ∨ isWordAt txt (pos - 1) = false
              rcases Nat.eq_zero_or_pos pos with hp | hp
              · exact Or.inl hp
              · right
                have := hprev.symm
                rw [decide_eq_true hp, Bool.true_and] at this
                exact this
            · show isWordAt txt (pos + n.length) = false
              have hb := hspec.2.2
              rw [hdropn, boundaryAfter_drop] at hb
              simpa using hb
          · have hdrop2 : cs.drop (n.length - 1) = txt.drop (pos + n.length) := by
              rw [← hdropn]
              cases hn : n.length with
              | zero => omega
              | succ k => simp
            refine ih (cs.drop (n.length - 1)) (pos + n.length) true hdrop2 ?_ m hmtail
            have hword : isWordAt (c :: cs) (n.length - 1) = true :=
              matchCI_all_word n (c :: cs) _ hspec.2.1
                (tableNames_wordChars n hspec.1) (n.length - 1) (by omega)
            have hidx : pos + n.length - 1 = pos + (n.length - 1) := by omega
            rw [decide_eq_true (by omega : 0 < pos + n.length), Bool.true_and, hidx,
              ← isWordAt_drop, ← hrest, hword]

theorem scan_spec (txt : List Char) : ∀ m ∈ scan txt,
    m.name ∈ TABLE_NAMES ∧ (m.start = 0 ∨ isWordAt txt (m.start - 1) = false) ∧
    isWordAt txt (m.start + m.name.length) = false := by
  intro m hm
  exact scanAux_mem_spec txt txt.length txt 0 false (List.drop_zero txt).symm rfl m hm

theorem scan_pairwise (txt : List Char) :
    List.Pairwise (fun a b : TMatch => a.start < b.start) (scan txt) := by
  apply startsOK_pairwise (scan txt) 0 (scanAux_startsOK TABLE_NAMES txt.length txt 0 false)
  intro m hm
  exact tableNames_ne_nil m.name (scan_spec txt m hm).1

theorem remediateLoop_snd (txt today : List Char) : ∀ (ms : List TMatch) (lastIdx : Nat),
    (remediateLoop txt today ms lastIdx).2 =
      (ms.filter (isRewritable txt)).map (issueOf txt) := by
  intro ms
  induction ms with
  | nil => intro lastIdx; rfl
  | cons m ms ih =>
    intro lastIdx
    cases hinfo : TABLE_MAP m.name with
    | none =>
      have hrw : isRewritable txt m = false := by simp [isRewritable, hinfo]
      simp [remediateLoop, hinfo, hrw, ih]
    | some info =>
      by_cases hp : protectedLine (lineOfMatch txt m) m.name = true
      · have hrw : isRewritable txt m = false := by simp [isRewritable, hinfo, hp]
        simp [remediateLoop, hinfo, hp, hrw, ih]
      · have hrw : isRewritable txt m = true := by
          simp only [isRewritable, hinfo, Bool.not_eq_true']
          exact Bool.not_eq_true _ ▸ (Bool.eq_false_iff.2 hp)
        simp [remediateLoop, hinfo, hp, hrw, ih, List.filter_cons]

theorem remediate_snd (txt today : List Char) :
    (remediate_code txt today).2 = ((scan txt).filter (isRewritable txt)).map (issueOf txt) := by
  by_cases htxt : txt = []
  · subst htxt
    rfl
  · simp only [remediate_code, if_neg htxt]
    exact remediateLoop_snd txt today (scan txt) 0

theorem seg_append_drop (txt : List Char) (a b : Nat) (hab : a ≤ b) :
    seg txt a b ++ txt.drop b = txt.drop a := by
  unfold seg
  have h1 : txt.drop b = (txt.drop a).drop (b - a) := by
    rw [List.drop_drop]
    congr 1
    omega
  rw [h1, List.take_append_drop]

theorem remediateLoop_fst_nil (txt today : List Char) : ∀ (ms : List TMatch) (lastIdx : Nat),
    startsOK lastIdx ms = true →
    (remediateLoop txt today ms lastIdx).2 = [] →
    (remediateLoop txt today ms lastIdx).1 = txt.drop lastIdx := by
  intro ms
  induction ms with
  | nil => intro lastIdx _ _; rfl
  | cons m ms ih =>
    intro lastIdx hso hsnd
    simp only [startsOK, Bool.and_eq_true, decide_eq_true_eq] at hso
    cases hinfo : TABLE_MAP m.name with
    | none =>
      have hred : remediateLoop txt today (m :: ms) lastIdx = remediateLoop txt today ms lastIdx := by
        simp [remediateLoop, hinfo]
      rw [hred] at hsnd ⊢
      exact ih lastIdx (startsOK_mono ms _ _ (by omega) hso.2) hsnd
    | some info =>
      by_cases hp : protectedLine (lineOfMatch txt m) m.name = true
      · have hred : remediateLoop txt today (m :: ms) lastIdx =
            (seg txt lastIdx (m.start + m.name.length) ++
              (remediateLoop txt today ms (m.start + m.name.length)).1,
             (remediateLoop txt today ms (m.start + m.name.length)).2) := by
          simp [remediateLoop, hinfo, hp]
        rw [hred] at hsnd ⊢
        have h1 := ih (m.start + m.name.length) hso.2 hsnd
        simp only [h1]
        exact seg_append_drop txt lastIdx (m.start + m.name.length) (by omega)
      · have hred : (remediateLoop txt today (m :: ms) lastIdx).2 =
            issueOf txt m :: (remediateLoop txt today ms (m.start + m.name.length)).2 := by
          simp [remediateLoop, hinfo, hp]
        rw [hred] at hsnd
        exact absurd hsnd (by simp)

theorem remediate_fst_nil (txt today : List Char) (h : (remediate_code txt today).2 = []) :
    (remediate_code txt today).1 = txt := by
  by_cases htxt : txt = []
  · subst htxt
    rfl
  · simp only [remediate_code, if_neg htxt] at h ⊢
    rw [remediateLoop_fst_nil txt today (scan txt) 0
      (scanAux_startsOK TABLE_NAMES txt.length txt 0 false) h]
    exact List.drop_zero txt

theorem matchCI_map_upper : ∀ (n l : List Char),
    matchCI (l.map upperChar) n = Option.map (List.map upperChar) (matchCI l n) := by
  intro n
  induction n with
  | nil => intro l; cases l <;> rfl
  | cons k ks ih =>
    intro l
    cases l with
    | nil => rfl
    | cons c cs =>
      simp only [List.map_cons, matchCI, upperChar_upperChar]
      split
      · exact ih cs
      · rfl

theorem boundaryAfter_map_upper (l : List Char) :
    boundaryAfter (l.map upperChar) = boundaryAfter l := by
  cases l with
  | nil => rfl
  | cons c cs => simp [boundaryAfter, isWordChar_upperChar]

theorem firstNameMatch_map_upper : ∀ (names : List (List Char)) (l : List Char),
    firstNameMatch names (l.map upperChar) = firstNameMatch names l := by
  intro names
  induction names with
  | nil => intro l; rfl
  | cons n ns ih =>
    intro l
    simp only [firstNameMatch, matchCI_map_upper]
    cases h : matchCI l n with
    | none => exact ih l
    | some after =>
      simp only [Option.map_some']
      rw [boundaryAfter_map_upper]
      split
      · rfl
      · exact ih l

theorem scanAux_map_upper (names : List (List Char)) :
    ∀ (fuel : Nat) (l : List Char) (pos : Nat) (prevW : Bool),
    scanAux names fuel prevW pos (l.map upperChar) = scanAux names fuel prevW pos l := by
  intro fuel
  induction fuel with
  | zero => intro l pos prevW; rfl
  | succ fuel ih =>
    intro l pos prevW
    cases l with
    | nil => cases prevW <;> rfl
    | cons c cs =>
      rw [List.map_cons]
      cases prevW with
      | true =>
        show scanAux names fuel (isWordChar (upperChar c)) (pos + 1) (cs.map upperChar) =
          scanAux names fuel (isWordChar c) (pos + 1) cs
        rw [isWordChar_upperChar, ih]
      | false =>
        have h1 : firstNameMatch names (upperChar c :: cs.map upperChar) =
            firstNameMatch names (c :: cs) := by
          rw [← List.map_cons]
          exact firstNameMatch_map_upper names (c :: cs)
        cases hf : firstNameMatch names (c :: cs) with
        | none =>
          have e1 : scanAux names (fuel + 1) false pos (upperChar c :: cs.map upperChar) =
              scanAux names fuel (isWordChar (upperChar c)) (pos + 1) (cs.map upperChar) := by
            simp only [scanAux, h1, hf]
          have e2 : scanAux names (fuel + 1) false pos (c :: cs) =
              scanAux names fuel (isWordChar c) (pos + 1) cs := by
            simp only [scanAux, hf]
          rw [e1, e2, isWordChar_upperChar, ih]
        | some n =>
          have e1 : scanAux names (fuel + 1) false pos (upperChar c :: cs.map upperChar) =
              ⟨pos, n⟩ :: scanAux names fuel true (pos + n.length)
                ((cs.map upperChar).drop (n.length - 1)) := by
            simp only [scanAux, h1, hf]
          have e2 : scanAux names (fuel + 1) false pos (c :: cs) =
              ⟨pos, n⟩ :: scanAux names fuel true (pos + n.length)
                (cs.drop (n.length - 1)) := by
            simp only [scanAux, hf]
          rw [e1, e2, ← List.map_drop, ih]

theorem scan_map_upper (txt : List Char) : scan (txt.map upperChar) = scan txt := by
  unfold scan
  rw [List.length_map]
  exact scanAux_map_upper TABLE_NAMES txt.length txt 0 false

theorem idxOfNL_map_upper : ∀ (l : List Char), idxOfNL (l.map upperChar) = idxOfNL l := by
  intro l
  induction l with
  | nil => rfl
  | cons c cs ih =>
    simp only [List.map_cons, idxOfNL, ih]
    by_cases h : c = '\n'
    · rw [if_pos ((newline_upperChar c).2 h), if_pos h]
    · rw [if_neg (fun hc => h ((newline_upperChar c).1 hc)), if_neg h]

theorem lineStart_map_upper (txt : List Char) (i : Nat) :
    lineStart (txt.map upperChar) i = lineStart txt i := by
  unfold lineStart
  rw [← List.map_take, ← List.map_reverse, idxOfNL_map_upper]

theorem lineEnd_map_upper (txt : List Char) (j : Nat) :
    lineEnd (txt.map upperChar) j = lineEnd txt j := by
  unfold lineEnd
  rw [← List.map_drop, idxOfNL_map_upper, List.length_map]

theorem seg_map_upper (txt : List Char) (a b : Nat) :
    seg (txt.map upperChar) a b = (seg txt a b).map upperChar := by
  unfold seg
  rw [← List.map_drop, ← List.map_take]

theorem lineOfMatch_map_upper (txt : List Char) (m : TMatch) :
    lineOfMatch (txt.map upperChar) m = lineOfMatch txt m := by
  unfold lineOfMatch
  rw [lineStart_map_upper, lineEnd_map_upper, seg_map_upper, List.map_map]
  exact List.map_congr_left (fun c _ => upperChar_upperChar c)

theorem isRewritable_map_upper (txt : List Char) (m : TMatch) :
    isRewritable (txt.map upperChar) m = isRewritable txt m := by
  unfold isRewritable
  rw [lineOfMatch_map_upper]

theorem issueOf_map_upper (txt : List Char) (m : TMatch) :
    clearSnippet (issueOf (txt.map upperChar) m) = clearSnippet (issueOf txt m) := by
  unfold issueOf clearSnippet
  cases h : TABLE_MAP m.name <;> rfl

theorem dropLit_iff : ∀ (k l r : List Char), dropLit l k = some r ↔ l = k ++ r := by
  intro k
  induction k with
  | nil =>
    intro l r
    cases l <;> simp [dropLit]
  | cons a ks ih =>
    intro l r
    cases l with
    | nil => simp [dropLit]
    | cons c cs =>
      simp only [dropLit, List.cons_append, List.cons.injEq]
      by_cases hca : c = a
      · rw [if_pos hca, ih]
        simp [hca]
      · rw [if_neg hca]
        simp [hca]

theorem allSpace_dropWhile_append : ∀ (w l : List Char), (∀ c ∈ w, isSpaceChar c = true) →
    (w ++ l).dropWhile isSpaceChar = l.dropWhile isSpaceChar := by
  intro w
  induction w with
  | nil => intro l _; rfl
  | cons c w ih =>
    intro l hall
    rw [List.cons_append, List.dropWhile_cons, if_pos (hall c (List.mem_cons_self _ _))]
    exact ih l (fun d hd => hall d (List.mem_cons_of_mem _ hd))

theorem dropWhile_head_false (c : Char) (cs : List Char) (h : isSpaceChar c = false) :
    (c :: cs).dropWhile isSpaceChar = c :: cs := by
  rw [List.dropWhile_cons, if_neg (by simp [h])]


theorem wsThen_cons (c : Char) (cs : List Char) :
    wsThen (c :: cs) = if isSpaceChar c then some (cs.dropWhile isSpaceChar) else none := rfl

theorem wsThen_append (s r : List Char) (hs : s ≠ [])
    (hall : ∀ c ∈ s, isSpaceChar c = true)
    (hr : r.dropWhile isSpaceChar = r) : wsThen (s ++ r) = some r := by
  cases s with
  | nil => exact absurd rfl hs
  | cons c s2 =>
    rw [List.cons_append, wsThen_cons, if_pos (hall c (List.mem_cons_self _ _)),
      allSpace_dropWhile_append s2 r (fun d hd => hall d (List.mem_cons_of_mem _ hd)), hr]

theorem wsThen_eq (l r : List Char) (h : wsThen l = some r) :
    ∃ s, s ≠ [] ∧ (∀ c ∈ s, isSpaceChar c = true) ∧ l = s ++ r := by
  cases l with
  | nil => exact absurd h (by simp [wsThen])
  | cons c cs =>
    rw [wsThen_cons] at h
    by_cases hc : isSpaceChar c = true
    · rw [if_pos hc, Option.some.injEq] at h
      refine ⟨c :: cs.takeWhile isSpaceChar, by simp, ?_, ?_⟩
      · intro d hd
        rcases List.mem_cons.1 hd with rfl | hd2
        · exact hc
        · exact List.mem_takeWhile_imp hd2
      · rw [List.cons_append, ← h, List.takeWhile_append_dropWhile]
    · rw [if_neg hc] at h
      exact absurd h (by simp)

theorem kwTableAt_iff (line kw name : List Char)
    (hkw : ∃ k0 ks0, kw = k0 :: ks0 ∧ isSpaceChar k0 = false)
    (hname : ∃ c0 cs0, name = c0 :: cs0 ∧ isSpaceChar c0 = false) :
    kwTableAt line kw name = true ↔
      ∃ w s rest, (∀ c ∈ w, isSpaceChar c = true) ∧ s ≠ [] ∧
        (∀ c ∈ s, isSpaceChar c = true) ∧ boundaryAfter rest = true ∧
        line = w ++ kw ++ s ++ name ++ rest := by
  constructor
  · intro h
    unfold kwTableAt at h
    cases h1 : dropLit (line.dropWhile isSpaceChar) kw with
    | none => rw [h1] at h; simp at h
    | some r1 =>
      rw [h1] at h
      dsimp only at h
      cases h2 : wsThen r1 with
      | none => rw [h2] at h; simp at h
      | some r2 =>
        rw [h2] at h
        dsimp only at h
        cases h3 : dropLit r2 name with
        | none => rw [h3] at h; simp at h
        | some r3 =>
          rw [h3] at h
          dsimp only at h
          have e1 : line.dropWhile isSpaceChar = kw ++ r1 := (dropLit_iff kw _ r1).1 h1
          obtain ⟨s, hs, hsall, e2⟩ := wsThen_eq r1 r2 h2
          have e3 : r2 = name ++ r3 := (dropLit_iff name r2 r3).1 h3
          refine ⟨line.takeWhile isSpaceChar, s, r3,
            (fun c hc => List.mem_takeWhile_imp hc), hs, hsall, h, ?_⟩
          conv_lhs => rw [← List.takeWhile_append_dropWhile isSpaceChar line]
          rw [e1, e2, e3]
          simp [List.append_assoc]
  · rintro ⟨w, s, rest, hw, hs, hsall, hb, rfl⟩
    obtain ⟨k0, ks0, hkweq, hk0⟩ := hkw
    obtain ⟨c0, cs0, hnameq, hc0⟩ := hname
    unfold kwTableAt
    have e1 : (w ++ kw ++ s ++ name ++ rest).dropWhile isSpaceChar =
        kw ++ (s ++ (name ++ rest)) := by
      have h2 : w ++ kw ++ s ++ name ++ rest = w ++ (kw ++ (s ++ (name ++ rest))) := by
        simp [List.append_assoc]
      rw [h2, allSpace_dropWhile_append w _ hw, hkweq, List.cons_append,
        dropWhile_head_false k0 _ hk0, ← List.cons_append, ← hkweq]
    rw [e1]
    rw [(dropLit_iff kw (kw ++ (s ++ (name ++ rest))) (s ++ (name ++ rest))).2 rfl]
    dsimp only
    rw [wsThen_append s (name ++ rest) hs hsall (by
      rw [hnameq, List.cons_append, dropWhile_head_false c0 _ hc0])]
    dsimp only
    rw [(dropLit_iff name (name ++ rest) rest).2 rfl]
    exact hb

theorem kwDeleteFrom_iff (line name : List Char)
    (hname : ∃ c0 cs0, name = c0 :: cs0 ∧ isSpaceChar c0 = false) :
    kwDeleteFrom line name = true ↔
      ∃ w s s2 rest, (∀ c ∈ w, isSpaceChar c = true) ∧ s ≠ [] ∧
        (∀ c ∈ s, isSpaceChar c = true) ∧ s2 ≠ [] ∧
        (∀ c ∈ s2, isSpaceChar c = true) ∧ boundaryAfter rest = true ∧
        line = w ++ "DELETE".toList ++ s ++ "FROM".toList ++ s2 ++ name ++ rest := by
  constructor
  · intro h
    unfold kwDeleteFrom at h
    cases h1 : dropLit (line.dropWhile isSpaceChar) ("DELETE".toList) with
    | none => rw [h1] at h; simp at h
    | some r1 =>
      rw [h1] at h
      dsimp only at h
      cases h2 : wsThen r1 with
      | none => rw [h2] at h; simp at h
      | some r2 =>
        rw [h2] at h
        dsimp only at h
        cases h3 : dropLit r2 ("FROM".toList) with
        | none => rw [h3] at h; simp at h
        | some r3 =>
          rw [h3] at h
          dsimp only at h
          cases h4 : wsThen r3 with
          | none => rw [h4] at h; simp at h
          | some r4 =>
            rw [h4] at h
            dsimp only at h
            cases h5 : dropLit r4 name with
            | none => rw [h5] at h; simp at h
            | some r5 =>
              rw [h5] at h
              dsimp only at h
              have e1 : line.dropWhile isSpaceChar = "DELETE".toList ++ r1 :=
                (dropLit_iff _ _ r1).1 h1
              obtain ⟨s, hs, hsall, e2⟩ := wsThen_eq r1 r2 h2
              have e3 : r2 = "FROM".toList ++ r3 := (dropLit_iff _ r2 r3).1 h3
              obtain ⟨s2, hs2, hs2all, e4⟩ := wsThen_eq r3 r4 h4
              have e5 : r4 = name ++ r5 := (dropLit_iff name r4 r5).1 h5
              refine ⟨line.takeWhile isSpaceChar, s, s2, r5,
                (fun c hc => List.mem_takeWhile_imp hc), hs, hsall, hs2, hs2all, h, ?_⟩
              conv_lhs => rw [← List.takeWhile_append_dropWhile isSpaceChar line]
              rw [e1, e2, e3, e4, e5]
              simp [List.append_assoc]
  · rintro ⟨w, s, s2, rest, hw, hs, hsall, hs2, hs2all, hb, rfl⟩
    obtain ⟨c0, cs0, hnameq, hc0⟩ := hname
    unfold kwDeleteFrom
    have e1 : (w ++ "DELETE".toList ++ s ++ "FROM".toList ++ s2 ++ name ++ rest).dropWhile
        isSpaceChar =
        "DELETE".toList ++ (s ++ ("FROM".toList ++ (s2 ++ (name ++ rest)))) := by
      have h2 : w ++ "DELETE".toList ++ s ++ "FROM".toList ++ s2 ++ name ++ rest =
          w ++ ("DELETE".toList ++ (s ++ ("FROM".toList ++ (s2 ++ (name ++ rest))))) := by
        simp [List.append_assoc]
      rw [h2, allSpace_dropWhile_append w _ hw]
      rfl
    rw [e1]
    rw [(dropLit_iff ("DELETE".toList) _ (s ++ ("FROM".toList ++ (s2 ++ (name ++ rest))))).2 rfl]
    dsimp only
    rw [wsThen_append s ("FROM".toList ++ (s2 ++ (name ++ rest))) hs hsall rfl]
    dsimp only
    rw [(dropLit_iff ("FROM".toList) _ (s2 ++ (name ++ rest))).2 rfl]
    dsimp only
    rw [wsThen_append s2 (name ++ rest) hs2 hs2all (by
      rw [hnameq, List.cons_append, dropWhile_head_false c0 _ hc0])]
    dsimp only
    rw [(dropLit_iff name (name ++ rest) rest).2 rfl]
    exact hb

theorem tableNames_headM : ∀ n ∈ TABLE_NAMES, n.headI = 'M' ∧ n ≠ [] := by decide

theorem tableNames_head_shape (n : List Char) (hn : n ∈ TABLE_NAMES) :
    ∃ c0 cs0, n = c0 :: cs0 ∧ isSpaceChar c0 = false := by
  obtain ⟨hhead, hne⟩ := tableNames_headM n hn
  cases n with
  | nil => exact absurd rfl hne
  | cons c cs =>
    refine ⟨c, cs, rfl, ?_⟩
    have hc : c = 'M' := hhead
    rw [hc]
    decide

theorem protectedLine_iff (line name : List Char) (hname : name ∈ TABLE_NAMES) :
    protectedLine line name = true ↔ IsProtectedSpec line name := by
  have hshape := tableNames_head_shape name hname
  unfold protectedLine IsProtectedSpec
  rw [Bool.or_eq_true, Bool.or_eq_true]
  rw [kwTableAt_iff line ("UPDATE".toList) name ⟨'U', "PDATE".toList, rfl, by decide⟩ hshape,
    kwTableAt_iff line ("MODIFY".toList) name ⟨'M', "ODIFY".toList, rfl, by decide⟩ hshape,
    kwDeleteFrom_iff line name hshape]
  constructor
  · rintro ((⟨w, s, rest, hw, hs, hsall, hb, he⟩ | ⟨w, s, rest, hw, hs, hsall, hb, he⟩) |
      ⟨w, s, s2, rest, hw, hs, hsall, hs2, hs2all, hb, he⟩)
    · exact ⟨w, s, rest, hw, hs, hsall, hb, Or.inl he⟩
    · exact ⟨w, s, rest, hw, hs, hsall, hb, Or.inr (Or.inl he)⟩
    · exact ⟨w, s, rest, hw, hs, hsall, hb, Or.inr (Or.inr ⟨s2, hs2, hs2all, he⟩)⟩
  · rintro ⟨w, s, rest, hw, hs, hsall, hb, (he | he | ⟨s2, hs2, hs2all, he⟩)⟩
    · exact Or.inl (Or.inl ⟨w, s, rest, hw, hs, hsall, hb, he⟩)
    · exact Or.inl (Or.inr ⟨w, s, rest, hw, hs, hsall, hb, he⟩)
    · exact Or.inr ⟨w, s, s2, rest, hw, hs, hsall, hs2, hs2all, hb, he⟩

/-- C1 (counterexample): at the input `SELECT * FROM MARD.` the single Issue
produced for the rewritten `MARD` does not carry the replacement name
`NSDM_V_MARD` in `target_name`: the call site of `_add_hit` passes the legacy
name, so `target_name` is `MARD`. -/
theorem c1_issue_fields_counterexample :
    ¬ (∀ i ∈ (remediate_code ("SELECT * FROM MARD.".toList) ("2026-10-12".toList)).2,
        (TABLE_MAP i.table).map Info.new = some i.target_name) := by decide

/-- C1 (amended): every emitted Issue has `table` and `target_name` both equal
to the legacy name (a vocabulary key); the replacement name appears only in
`suggested_statement`, as `Replaced {name} with {replacement}.`, and `note` is
the Reference Entry's note. -/
theorem c1_issue_fields (txt today : List Char) (i : Issue)
    (hi : i ∈ (remediate_code txt today).2) :
    i.table = i.target_name ∧ i.table ∈ TABLE_NAMES ∧
    ∃ info, TABLE_MAP i.table = some info ∧
      i.suggested_statement =
        "Replaced ".toList ++ i.table ++ " with ".toList ++ info.new ++ ".".toList ∧
      i.note = some info.note := by
  rw [remediate_snd] at hi
  obtain ⟨m, hmfil, rfl⟩ := List.mem_map.1 hi
  obtain ⟨hmscan, hmrw⟩ := List.mem_filter.1 hmfil
  have hname : m.name ∈ TABLE_NAMES := (scan_spec txt m hmscan).1
  cases hinfo : TABLE_MAP m.name with
  | none => simp [isRewritable, hinfo] at hmrw
  | some info =>
    simp only [issueOf, hinfo]
    simp [hname]

/-- C1 (witness): the amended field equations evaluated on the Issue emitted
for `SELECT * FROM MARD.`. -/
theorem c1_issue_fields_witness :
    (issueOf ("SELECT * FROM MARD.".toList) ⟨14, "MARD".toList⟩).table =
      (issueOf ("SELECT * FROM MARD.".toList) ⟨14, "MARD".toList⟩).target_name ∧
    (issueOf ("SELECT * FROM MARD.".toList) ⟨14, "MARD".toList⟩).table ∈ TABLE_NAMES ∧
    ∃ info, TABLE_MAP (issueOf ("SELECT * FROM MARD.".toList) ⟨14, "MARD".toList⟩).table =
        some info ∧
      (issueOf ("SELECT * FROM MARD.".toList) ⟨14, "MARD".toList⟩).suggested_statement =
        "Replaced ".toList ++ (issueOf ("SELECT * FROM MARD.".toList)
          ⟨14, "MARD".toList⟩).table ++ " with ".toList ++ info.new ++ ".".toList ∧
      (issueOf ("SELECT * FROM MARD.".toList) ⟨14, "MARD".toList⟩).note = some info.note :=
  c1_issue_fields ("SELECT * FROM MARD.".toList) ("2026-10-12".toList) _ (by decide)

/-- C2: the protection test of the engine is exactly the spec's decomposition
of the upper-cased enclosing line (optional whitespace, `UPDATE`/`MODIFY`,
whitespace, the same table name, word boundary; or `DELETE`, whitespace,
`FROM`, whitespace, the same name, word boundary); concretely,
`UPDATE MSEG SET ...` and `DELETE FROM MARD.` are returned unchanged with no
Issue, while in `SELECT * FROM MARD.` the token `MARD` is replaced by
`NSDM_V_MARD` and exactly one Issue is emitted, noting that storage location
data is no longer persisted. -/
theorem c2_protection (txt : List Char) (m : TMatch) (today : List Char)
    (hname : m.name ∈ TABLE_NAMES) :
    (protectedLine (lineOfMatch txt m) m.name = true ↔
      IsProtectedSpec (lineOfMatch txt m) m.name) ∧
    remediate_code ("UPDATE MSEG SET ...".toList) today =
      ("UPDATE MSEG SET ...".toList, []) ∧
    remediate_code ("DELETE FROM MARD.".toList) today =
      ("DELETE FROM MARD.".toList, []) ∧
    (remediate_code ("SELECT * FROM MARD.".toList) today).1 =
      "SELECT * FROM NSDM_V_MARD".toList ++ changeMarker today ++ ".".toList ∧
    (remediate_code ("SELECT * FROM MARD.".toList) today).2.map Issue.note =
      [some ("Storage location data no longer persisted.".toList)] ∧
    (remediate_code ("SELECT * FROM MARD.".toList) today).2.length = 1 :=
  ⟨protectedLine_iff (lineOfMatch txt m) m.name hname, rfl, rfl, rfl, rfl, rfl⟩

/-- C2 (witness): the protection equivalence and the three concrete behaviors
evaluated at the `MSEG` match of `UPDATE MSEG SET ...`. -/
theorem c2_protection_witness :
    ((("MSEG".toList : List Char) ∈ TABLE_NAMES) ∧
      (protectedLine (lineOfMatch ("UPDATE MSEG SET ...".toList) ⟨7, "MSEG".toList⟩)
          ("MSEG".toList) = true ↔
        IsProtectedSpec (lineOfMatch ("UPDATE MSEG SET ...".toList) ⟨7, "MSEG".toList⟩)
          ("MSEG".toList))) ∧
    remediate_code ("UPDATE MSEG SET ...".toList) ("2026-10-12".toList) =
      ("UPDATE MSEG SET ...".toList, []) :=
  ⟨⟨by decide,
    (c2_protection ("UPDATE MSEG SET ...".toList) ⟨7, "MSEG".toList⟩
      ("2026-10-12".toList) (by decide)).1⟩,
   (c2_protection ("UPDATE MSEG SET ...".toList) ⟨7, "MSEG".toList⟩
      ("2026-10-12".toList) (by decide)).2.1⟩

/-- C3 (counterexample): the remediated text is not a function of the original
text and vocabulary alone — the same input rewritten under two different
current dates yields two different outputs, because the provenance marker
embeds `datetime.today()`. -/
theorem c3_determinism_counterexample :
    remediate_code ("MARD".toList) ("2026-01-01".toList) ≠
      remediate_code ("MARD".toList) ("2026-01-02".toList) := by decide

/-- C3 (amended): the issue list is a function of the original text and the
fixed vocabulary alone (two runs under any two dates agree on it), and for a
fixed current date the whole result is a function of the original text; only
the rewritten text's provenance annotation depends on the date. -/
theorem c3_determinism (txt d1 d2 : List Char) :
    (remediate_code txt d1).2 = (remediate_code txt d2).2 := by
  rw [remediate_snd, remediate_snd]

/-- C4: the number of Issues equals the number of matches classified
Rewritable (in vocabulary and on an unprotected line); Protected matches
contribute none. -/
theorem c4_count_invariant (txt today : List Char) :
    (remediate_code txt today).2.length =
      ((scan txt).filter (fun m => isRewritable txt m)).length := by
  rw [remediate_snd, List.length_map]

/-- C5: the Issue list is exactly the Rewritable matches in scan order, mapped
to their Issues, and those matches have strictly increasing start offsets in
the original text. -/
theorem c5_ordering (txt today : List Char) :
    (remediate_code txt today).2 =
      ((scan txt).filter (fun m => isRewritable txt m)).map (issueOf txt) ∧
    List.Pairwise (fun a b : TMatch => a.start < b.start)
      ((scan txt).filter (fun m => isRewritable txt m)) :=
  ⟨remediate_snd txt today,
    List.Pairwise.sublist (List.filter_sublist _) (scan_pairwise txt)⟩

/-- C6: every match of the scanner is a whole-word occurrence (the characters
adjacent to it, when they exist, are not letters, digits or underscore); at
any literal occurrence of `MARCH` the scanner never reports the embedded
shorter vocabulary entry `MARC`, and concretely `MARCH` alone is matched as
the full five-letter name and rewritten to `NSDM_V_MARCH`. -/
theorem c6_whole_word (txt : List Char) (m : TMatch) (i : Nat) (today : List Char)
    (hm : m ∈ scan txt)
    (hslice : (txt.drop i).take 5 = "MARCH".toList) :
    ((m.start = 0 ∨ isWordAt txt (m.start - 1) = false) ∧
      isWordAt txt (m.start + m.name.length) = false) ∧
    TMatch.mk i ("MARC".toList) ∉ scan txt ∧
    scan ("MARCH".toList) = [⟨0, "MARCH".toList⟩] ∧
    (remediate_code ("SELECT * FROM MARCH.".toList) today).1 =
      "SELECT * FROM NSDM_V_MARCH".toList ++ changeMarker today ++ ".".toList := by
  refine ⟨⟨(scan_spec txt m hm).2.1, (scan_spec txt m hm).2.2⟩, ?_, by decide, rfl⟩
  intro hmem
  have hb : isWordAt txt (i + 4) = false := (scan_spec txt ⟨i, "MARC".toList⟩ hmem).2.2
  have hl : txt.drop i = 'M' :: 'A' :: 'R' :: 'C' :: 'H' :: ((txt.drop i).drop 5) := by
    conv_lhs => rw [← List.take_append_drop 5 (txt.drop i)]
    rw [hslice]
    rfl
  have h4 : txt.drop (i + 4) = 'H' :: ((txt.drop i).drop 5) := by
    have hd : txt.drop (i + 4) = (txt.drop i).drop 4 := by rw [List.drop_drop]
    rw [hd, hl]
    rfl
  have hH : isWordAt txt (i + 4) = isWordChar 'H' := by
    unfold isWordAt
    rw [h4]
  rw [hH] at hb
  exact absurd hb (by decide)

/-- C6 (witness): the whole-word bounds and the `MARC`-exclusion evaluated on
the text `MARCH MSEG` at offset 0. -/
theorem c6_whole_word_witness :
    (TMatch.mk 0 ("MARCH".toList) ∈ scan ("MARCH MSEG".toList)) ∧
    ((("MARCH MSEG".toList).drop 0).take 5 = "MARCH".toList) ∧
    ((((TMatch.mk 0 ("MARCH".toList)).start = 0 ∨
        isWordAt ("MARCH MSEG".toList) ((TMatch.mk 0 ("MARCH".toList)).start - 1) = false) ∧
      isWordAt ("MARCH MSEG".toList)
        ((TMatch.mk 0 ("MARCH".toList)).start + (TMatch.mk 0 ("MARCH".toList)).name.length) =
          false) ∧
    TMatch.mk 0 ("MARC".toList) ∉ scan ("MARCH MSEG".toList) ∧
    scan ("MARCH".toList) = [⟨0, "MARCH".toList⟩] ∧
    (remediate_code ("SELECT * FROM MARCH.".toList) ("2026-10-12".toList)).1 =
      "SELECT * FROM NSDM_V_MARCH".toList ++ changeMarker ("2026-10-12".toList) ++
        ".".toList) :=
  ⟨by decide, by decide,
    c6_whole_word ("MARCH MSEG".toList) ⟨0, "MARCH".toList⟩ 0 ("2026-10-12".toList)
      (by decide) (by decide)⟩

/-- C7 (counterexample): a second remediation pass is not always a no-op: in
`UPDATE MSEG SET X = MARD MSEG.` the first pass rewrites `MARD` and splits the
line, which strips the `UPDATE`-protection of the trailing `MSEG`, so the
second pass rewrites it and emits an Issue. -/
theorem c7_second_pass_counterexample :
    remediate_code
        ((remediate_code ("UPDATE MSEG SET X = MARD MSEG.".toList)
          ("2026-10-12".toList)).1) ("2026-10-12".toList) ≠
      ((remediate_code ("UPDATE MSEG SET X = MARD MSEG.".toList)
          ("2026-10-12".toList)).1, ([] : List Issue)) := by decide

/-- C7 (amended): when the first pass performed no rewrite, a second pass (on
any date) returns the text unchanged with an empty issue list; and on typical
already-rewritten text, such as the remediation of `SELECT * FROM MARD.`, the
second pass is a no-op — but it is not a no-op in general (see the
counterexample, where an earlier rewrite on the same line strips a later
match's protection). -/
theorem c7_second_pass (txt d1 d2 : List Char)
    (h : (remediate_code txt d1).2 = []) :
    remediate_code (remediate_code txt d1).1 d2 = ((remediate_code txt d1).1, []) ∧
    remediate_code
        ((remediate_code ("SELECT * FROM MARD.".toList) ("2026-10-12".toList)).1)
        ("2026-10-12".toList) =
      ((remediate_code ("SELECT * FROM MARD.".toList) ("2026-10-12".toList)).1, []) := by
  constructor
  · have hfst : (remediate_code txt d1).1 = txt := remediate_fst_nil txt d1 h
    rw [hfst]
    have hsnd : (remediate_code txt d2).2 = [] := by
      rw [remediate_snd]
      rw [remediate_snd] at h
      exact h
    have hfst2 : (remediate_code txt d2).1 = txt := remediate_fst_nil txt d2 hsnd
    have hpair : remediate_code txt d2 =
        ((remediate_code txt d2).1, (remediate_code txt d2).2) := rfl
    rw [hpair, hfst2, hsnd]
  · decide

/-- C7 (witness): the no-rewrite case of the amended claim evaluated on the
vocabulary-free text `hello`. -/
theorem c7_second_pass_witness :
    ((remediate_code ("hello".toList) ("2026-10-12".toList)).2 = ([] : List Issue)) ∧
    (remediate_code (remediate_code ("hello".toList) ("2026-10-12".toList)).1
        ("2026-10-13".toList) =
      ((remediate_code ("hello".toList) ("2026-10-12".toList)).1, []) ∧
    remediate_code
        ((remediate_code ("SELECT * FROM MARD.".toList) ("2026-10-12".toList)).1)
        ("2026-10-12".toList) =
      ((remediate_code ("SELECT * FROM MARD.".toList) ("2026-10-12".toList)).1, [])) :=
  ⟨by decide,
    c7_second_pass ("hello".toList) ("2026-10-12".toList) ("2026-10-13".toList) (by decide)⟩

/-- C8: the engine is total — modelled as a total function it returns the
empty text with an empty issue list on empty input, and returns any text with
no scanner match unchanged with an empty issue list. -/
theorem c8_no_match_identity (txt today : List Char) (h : scan txt = []) :
    remediate_code ([] : List Char) today = ([], []) ∧
    remediate_code txt today = (txt, []) := by
  refine ⟨rfl, ?_⟩
  by_cases htxt : txt = []
  · subst htxt
    rfl
  · simp only [remediate_code, if_neg htxt, h]
    show (txt.drop 0, ([] : List Issue)) = (txt, [])
    rw [List.drop_zero]

/-- C8 (witness): the no-match identity evaluated on `no tables here`. -/
theorem c8_no_match_identity_witness :
    (scan ("no tables here".toList) = []) ∧
    (remediate_code ([] : List Char) ("2026-10-12".toList) = ([], []) ∧
      remediate_code ("no tables here".toList) ("2026-10-12".toList) =
        ("no tables here".toList, [])) :=
  ⟨by decide, c8_no_match_identity ("no tables here".toList) ("2026-10-12".toList) (by decide)⟩

/-- C9: upper-casing the whole input changes neither the matches found, nor
the Rewritable/Protected classification of any match, nor the issue list up
to the casing of the source snippet field; and a lower-case occurrence such as
`mseg` is rewritten to the verbatim replacement `MATDOC` with the annotation
in its fixed casing. -/
theorem c9_case_insensitive (txt today : List Char) (m : TMatch) :
    scan (txt.map upperChar) = scan txt ∧
    isRewritable (txt.map upperChar) m = isRewritable txt m ∧
    ((remediate_code (txt.map upperChar) today).2.map clearSnippet =
      (remediate_code txt today).2.map clearSnippet) ∧
    (remediate_code ("select * from mseg.".toList) today).1 =
      "select * from MATDOC".toList ++ changeMarker today ++ ".".toList := by
  refine ⟨scan_map_upper txt, isRewritable_map_upper txt m, ?_, rfl⟩
  rw [remediate_snd, remediate_snd, scan_map_upper,
    List.filter_congr (fun x _ => isRewritable_map_upper txt x),
    List.map_map, List.map_map]
  exact List.map_congr_left (fun a _ => issueOf_map_upper txt a)

/-- C10: the text inserted in place of a rewritten match is exactly the
replacement identifier followed by a newline, the comment line
`" Changed by PwC on <date>`, and another newline, so the remainder of the
original line continues on a fresh line after the annotation. -/
theorem c10_inserted_text (today txt : List Char) (m : TMatch) (ms : List TMatch)
    (lastIdx : Nat) (info : Info)
    (hinfo : TABLE_MAP m.name = some info)
    (hp : protectedLine (lineOfMatch txt m) m.name = false) :
    changeMarker today =
      '\n' :: '"' :: (" Changed by PwC on ".toList ++ today ++ ['\n']) ∧
    (remediateLoop txt today (m :: ms) lastIdx).1 =
      seg txt lastIdx m.start ++ info.new ++ changeMarker today ++
        (remediateLoop txt today ms (m.start + m.name.length)).1 ∧
    (remediate_code ("SELECT * FROM MARD. MORE".toList) today).1 =
      "SELECT * FROM ".toList ++ "NSDM_V_MARD".toList ++ changeMarker today ++
        ". MORE".toList := by
  refine ⟨rfl, ?_, rfl⟩
  simp [remediateLoop, hinfo, hp]

/-- C10 (witness): the inserted-text shape evaluated at the `MARD` match of
`SELECT * FROM MARD. MORE`. -/
theorem c10_inserted_text_witness :
    (TABLE_MAP ("MARD".toList) =
      some ⟨"NSDM_V_MARD".toList,
        "Storage location data no longer persisted.".toList⟩) ∧
    (protectedLine
        (lineOfMatch ("SELECT * FROM MARD. MORE".toList) ⟨14, "MARD".toList⟩)
        ("MARD".toList) = false) ∧
    (changeMarker ("2026-10-12".toList) =
      '\n' :: '"' :: (" Changed by PwC on ".toList ++ "2026-10-12".toList ++ ['\n']) ∧
    (remediateLoop ("SELECT * FROM MARD. MORE".toList) ("2026-10-12".toList)
        [⟨14, "MARD".toList⟩] 0).1 =
      seg ("SELECT * FROM MARD. MORE".toList) 0 14 ++ "NSDM_V_MARD".toList ++
        changeMarker ("2026-10-12".toList) ++
        (remediateLoop ("SELECT * FROM MARD. MORE".toList) ("2026-10-12".toList) [] 18).1 ∧
    (remediate_code ("SELECT * FROM MARD. MORE".toList) ("2026-10-12".toList)).1 =
      "SELECT * FROM ".toList ++ "NSDM_V_MARD".toList ++
        changeMarker ("2026-10-12".toList) ++ ". MORE".toList) :=
  ⟨by decide, by decide,
    c10_inserted_text ("2026-10-12".toList) ("SELECT * FROM MARD. MORE".toList)
      ⟨14, "MARD".toList⟩ [] 0
      ⟨"NSDM_V_MARD".toList, "Storage location data no longer persisted.".toList⟩
      (by decide) (by decide)⟩
